import Mathlib

/-!
# Verification of the PR-review core of `src/review_pr.py`

This file shallowly embeds the core pure logic of `src/review_pr.py`:

* the diff position mapper inside `post_inline_comments` (the second pass that
  walks `patch.split('\n')` maintaining the `position` and `plus_line_counter`
  counters and posts an inline comment for every added line whose ordinal has a
  comment attached),
* the annotation extraction and merge loop inside `review_code_with_gpt`
  (the `comment_pattern` regex scan, the `.strip()` / empty-body discard, the
  `format_comment_text` call and the `inline_dict` merge),
* `format_comment_text` (boilerplate stripping, keyword classification,
  emoji-labelled rendering, and the code-example branch whose
  two-variable unpacking of a three-element `re.split` result raises
  `ValueError`),
* the deduplication gate keyed by `f"{file_name}:{position}"`,
* `PRReviewConfig._merge_config` and its single-level deep merge over
  `DEFAULT_CONFIG`.

Python strings are modelled as Lean `String`s, and every operation used by the
source (`split('\n')`, `startswith`, `strip`, `lower`, substring tests, the
regular expressions) is re-implemented over `String.data` (`List Char`) so that
all definitions reduce in the kernel.  Python's `re` class `\s` is modelled by
the set of whitespace characters Python's `re` module accepts for `str`
patterns; `\d` and `\w` are modelled by their ASCII parts, which is the
fragment exercised here.  Python `dict`s (insertion ordered, unique keys) are
modelled as association lists; `dict.update` and key-membership follow the
insertion-order semantics.
-/

set_option maxRecDepth 10000

namespace ReviewPR

/-! ## Python string primitives -/

/-- The whitespace characters matched by Python's `\s` (for `str` patterns)
and stripped by `str.strip()`. -/
def pySpaceChars : List Char :=
  [' ', '\t', '\n', '\r', '\x0b', '\x0c',
   '\x1c', '\x1d', '\x1e', '\x1f', '\u0085', ' ', ' ',
   ' ', ' ', ' ', ' ', ' ', ' ', ' ',
   ' ', ' ', ' ', ' ', ' ', ' ', ' ',
   ' ', '　']

def isPySpace (c : Char) : Bool := pySpaceChars.contains c

/-- Python `str.strip()`: remove leading and trailing whitespace. -/
def pyStrip (s : String) : String :=
  ⟨((s.data.dropWhile isPySpace).reverse.dropWhile isPySpace).reverse⟩

/-- Python `str.lower()` (ASCII fragment, which is all the source's keyword
tables need). -/
def pyLower (s : String) : String := ⟨s.data.map Char.toLower⟩

/-- Python `str.startswith(pre)`. -/
def strStartsWith (s pre : String) : Bool := pre.data.isPrefixOf s.data

/-- Contiguous-sublist test on character lists, modelling Python's
`sub in s` substring test. -/
def containsSub : List Char → List Char → Bool
  | [], sub => sub.isEmpty
  | c :: rest, sub => sub.isPrefixOf (c :: rest) || containsSub rest sub

/-- Python `sub in s` on strings. -/
def strContains (s sub : String) : Bool := containsSub s.data sub.data

/-- Python `text.split(sep)` for a single-character separator: split at every
occurrence, keeping empty pieces. -/
def splitChAux (sep : Char) : List Char → List Char → List String
  | [], acc => [⟨acc.reverse⟩]
  | c :: rest, acc =>
    if c = sep then (⟨acc.reverse⟩ : String) :: splitChAux sep rest []
    else splitChAux sep rest (c :: acc)

/-- Python `text.split('\n')`. -/
def pySplitNl (s : String) : List String := splitChAux '\n' s.data []

theorem containsSub_iff (cs sub : List Char) :
    containsSub cs sub = true ↔ sub <:+: cs := by
  induction cs with
  | nil =>
    simp only [containsSub, List.isEmpty_iff, List.infix_nil]
  | cons c rest ih =>
    simp only [containsSub, Bool.or_eq_true, List.isPrefixOf_iff_prefix, ih,
      List.infix_cons_iff]

/-! ## The diff position mapper (`post_inline_comments`, second pass)

The source walks `patch.split('\n')` with two counters, starting from
`position = 1`, `plus_line_counter = 0`:

* a line satisfying `startswith('+') and not startswith('+++ ')` bumps
  `plus_line_counter`, is the potential anchor of a comment at the *current*
  `position`, and then bumps `position`;
* a line satisfying `startswith('@@ ')` resets `position` to `1`;
* every other line bumps `position`.
-/

/-- `diff_line.startswith('+') and not diff_line.startswith('+++ ')`. -/
def isAddedLine (l : String) : Bool :=
  strStartsWith l "+" && !strStartsWith l "+++ "

/-- `diff_line.startswith('@@ ')`. -/
def isHunkHeader (l : String) : Bool := strStartsWith l "@@ "

/-- One step of the `(position, plus_line_counter)` state machine of the
posting loop. -/
def stepState : Nat × Nat → String → Nat × Nat
  | (pos, plus), l =>
    if isAddedLine l then (pos + 1, plus + 1)
    else if isHunkHeader l then (1, plus)
    else (pos + 1, plus)

/-- The `(AddedLineOrdinal, DiffPosition)` pair recorded at a line, if any:
an added line is anchored at the incremented ordinal and the *current*
position. -/
def recordAt : Nat × Nat → String → Option (Nat × Nat)
  | (pos, plus), l => if isAddedLine l then some (plus + 1, pos) else none

/-- The position indexer: walk the diff lines recording, for every added line,
its `(AddedLineOrdinal, DiffPosition)` pair. -/
def indexLines : List String → Nat × Nat → List (Nat × Nat)
  | [], _ => []
  | l :: rest, st =>
    match recordAt st l with
    | some pr => pr :: indexLines rest (stepState st l)
    | none => indexLines rest (stepState st l)

/-- The `(AddedLineOrdinal, DiffPosition)` join table produced from one
patch text, exactly as the posting loop derives it. -/
def positionIndex (patch : String) : List (Nat × Nat) :=
  indexLines (pySplitNl patch) (1, 0)

/-! Specification-side notions used to state the positional claims: the
0-based indices of the added lines of a patch, and the index of the most
recent hunk header strictly before a given line. -/

/-- Indices (0-based) of the added lines of the line list, in order. -/
def addedIndices : List String → List Nat
  | [] => []
  | l :: rest =>
    (if isAddedLine l then [0] else []) ++ (addedIndices rest).map (· + 1)

/-- Index of the most recent hunk-header line strictly before index `i`,
if any. -/
def lastHunkBefore : List String → Nat → Option Nat
  | _, 0 => none
  | [], _ + 1 => none
  | l :: rest, i + 1 =>
    match lastHunkBefore rest i with
    | some j => some (j + 1)
    | none => if isHunkHeader l then some 0 else none

/-- The DiffPosition the specification (as amended) predicts for line `i`:
the number of lines counted since the most recent hunk header, *exclusive*
of that header, the line immediately after a header counting `1`; before any
hunk header the count continues from the initial position `pos`. -/
def posFrom (lines : List String) (pos i : Nat) : Nat :=
  match lastHunkBefore lines i with
  | some j => i - j
  | none => pos + i

theorem strStartsWith_prefix {s pre : String} (h : strStartsWith s pre = true) :
    pre.data <+: s.data :=
  List.isPrefixOf_iff_prefix.mp h

theorem startsWith_plus_not_hunk (l : String) (h : strStartsWith l "+" = true) :
    isHunkHeader l = false := by
  by_contra hcon
  have hh : strStartsWith l "@@ " = true := by
    revert hcon
    unfold isHunkHeader
    cases strStartsWith l "@@ " <;> simp
  have h1 : "+".data <+: l.data := strStartsWith_prefix h
  have h2 : "@@ ".data <+: l.data := strStartsWith_prefix hh
  have h3 : "+".data <+: "@@ ".data :=
    List.prefix_of_prefix_length_le h1 h2 (by decide)
  exact absurd h3 (by decide)

theorem startsWith_plusplusplus_not_added (l : String)
    (h : strStartsWith l "+++ " = true) : isAddedLine l = false := by
  unfold isAddedLine
  rw [h]
  simp

theorem startsWith_plusplusplus_starts_plus (l : String)
    (h : strStartsWith l "+++ " = true) : strStartsWith l "+" = true := by
  have h1 : "+++ ".data <+: l.data := strStartsWith_prefix h
  have h2 : "+".data <+: "+++ ".data := by decide
  exact List.isPrefixOf_iff_prefix.mpr (h2.trans h1)

theorem posFrom_zero (lines : List String) (pos : Nat) :
    posFrom lines pos 0 = pos := by
  cases lines <;> simp [posFrom, lastHunkBefore]

theorem posFrom_cons (l : String) (rest : List String) (pos i : Nat) :
    posFrom (l :: rest) pos (i + 1)
      = posFrom rest (if isHunkHeader l then 1 else pos + 1) i := by
  cases h : lastHunkBefore rest i with
  | some j =>
    simp only [posFrom, lastHunkBefore, h]
    omega
  | none =>
    cases hh : isHunkHeader l with
    | true => simp [posFrom, lastHunkBefore, h, hh]; omega
    | false => simp [posFrom, lastHunkBefore, h, hh]; omega

theorem indexLines_cons (l : String) (rest : List String) (st : Nat × Nat) :
    indexLines (l :: rest) st
      = match recordAt st l with
        | some pr => pr :: indexLines rest (stepState st l)
        | none => indexLines rest (stepState st l) := rfl

theorem recordAt_eq (pos plus : Nat) (l : String) :
    recordAt (pos, plus) l
      = if isAddedLine l then some (plus + 1, pos) else none := rfl

theorem stepState_eq (pos plus : Nat) (l : String) :
    stepState (pos, plus) l
      = if isAddedLine l then (pos + 1, plus + 1)
        else if isHunkHeader l then (1, plus) else (pos + 1, plus) := rfl

theorem isAddedLine_starts_plus (l : String) (h : isAddedLine l = true) :
    strStartsWith l "+" = true := by
  unfold isAddedLine at h
  exact ((Bool.and_eq_true _ _).mp h).1

/-- Core lemma for the position mapper: the recorded DiffPositions are, added
line by added line, the counts given by `posFrom`. -/
theorem indexLines_map_snd (lines : List String) : ∀ pos plus : Nat,
    (indexLines lines (pos, plus)).map Prod.snd
      = (addedIndices lines).map (posFrom lines pos) := by
  induction lines with
  | nil => intro pos plus; rfl
  | cons l rest ih =>
    intro pos plus
    cases ha : isAddedLine l with
    | true =>
      have hnh : isHunkHeader l = false :=
        startsWith_plus_not_hunk l (isAddedLine_starts_plus l ha)
      have hmap : (addedIndices rest).map
            (fun i => posFrom (l :: rest) pos (i + 1))
          = (addedIndices rest).map (posFrom rest (pos + 1)) :=
        List.map_congr_left fun i _ => by rw [posFrom_cons, hnh]; simp
      simp only [indexLines_cons, recordAt_eq, stepState_eq, ha, if_true,
        addedIndices, List.singleton_append, List.map_cons, List.map_append,
        List.map_map, Function.comp_def, List.map_nil, List.nil_append]
      rw [posFrom_zero, hmap, ih (pos + 1) (plus + 1)]
    | false =>
      cases hh : isHunkHeader l with
      | true =>
        have hmap : (addedIndices rest).map
              (fun i => posFrom (l :: rest) pos (i + 1))
            = (addedIndices rest).map (posFrom rest 1) :=
          List.map_congr_left fun i _ => by rw [posFrom_cons, hh]; simp
        simp only [indexLines_cons, recordAt_eq, stepState_eq, ha, hh,
          if_true, if_false, Bool.false_eq_true, addedIndices,
          List.map_append, List.map_map, Function.comp_def, List.map_nil,
          List.nil_append]
        rw [hmap, ih 1 plus]
      | false =>
        have hmap : (addedIndices rest).map
              (fun i => posFrom (l :: rest) pos (i + 1))
            = (addedIndices rest).map (posFrom rest (pos + 1)) :=
          List.map_congr_left fun i _ => by rw [posFrom_cons, hh]; simp
        simp only [indexLines_cons, recordAt_eq, stepState_eq, ha, hh,
          if_false, Bool.false_eq_true, addedIndices, List.map_append,
          List.map_map, Function.comp_def, List.map_nil, List.nil_append]
        rw [hmap, ih (pos + 1) plus]

/-- Core lemma for the ordinals: the recorded AddedLineOrdinals are the
contiguous run starting right after `plus`, of length the number of added
lines. -/
theorem indexLines_map_fst (lines : List String) : ∀ pos plus : Nat,
    (indexLines lines (pos, plus)).map Prod.fst
      = List.range' (plus + 1) (lines.countP isAddedLine) := by
  induction lines with
  | nil => intro pos plus; rfl
  | cons l rest ih =>
    intro pos plus
    cases ha : isAddedLine l with
    | true =>
      simp only [indexLines_cons, recordAt_eq, stepState_eq, ha, if_true,
        List.map_cons]
      rw [List.countP_cons_of_pos _ _ ha, List.range'_succ,
        ih (pos + 1) (plus + 1)]
    | false =>
      simp only [indexLines_cons, recordAt_eq, stepState_eq, ha, if_false,
        Bool.false_eq_true]
      rw [List.countP_cons_of_neg _ _ (by simp [ha])]
      cases hh : isHunkHeader l with
      | true => simp only [hh, if_true]; exact ih 1 plus
      | false => simp only [hh, if_false, Bool.false_eq_true]
                 exact ih (pos + 1) plus

theorem indexLines_length (lines : List String) (pos plus : Nat) :
    (indexLines lines (pos, plus)).length = lines.countP isAddedLine := by
  have h := indexLines_map_fst lines pos plus
  have := congrArg List.length h
  simpa using this

/-- **C1 (counterexample).** The claim states that the DiffPosition recorded
for an added line counts the lines since the most recent hunk header
*inclusive* of that header (so the line right after the header would record
`2`).  On the patch `"@@ -1 +1 @@\n+a"` the code records `(1, 1)` for its
single added line, not `(1, 2)`. -/
theorem diffPosition_inclusive_counterexample :
    positionIndex "@@ -1 +1 @@\n+a" = [(1, 1)]
      ∧ positionIndex "@@ -1 +1 @@\n+a" ≠ [(1, 2)] := by
  constructor
  · decide
  · decide

/-- **C1 (amended).** For every unified-diff text and every added line in it,
the DiffPosition recorded for that line equals the number of lines counted
since the most recent hunk header *exclusive* of that header (the line
immediately following a hunk header records position `1`); before any hunk
header the recorded position is the 1-based line index from the start of the
patch. -/
theorem diffPosition_counts_lines_since_hunk (patch : String) :
    (positionIndex patch).map Prod.snd
      = (addedIndices (pySplitNl patch)).map (posFrom (pySplitNl patch) 1) :=
  indexLines_map_snd (pySplitNl patch) 1 0

/-- **C2.** For every unified-diff text, the number of
`(AddedLineOrdinal, DiffPosition)` pairs produced by the position indexer
equals the number of added lines of the patch (lines beginning with `+`,
excluding the `+++ ` to-file header), and the AddedLineOrdinal components are
the contiguous run `1, 2, ..., N` in patch order—never resetting at hunk
boundaries. -/
theorem addedLineOrdinals_contiguous (patch : String) :
    (positionIndex patch).length = (pySplitNl patch).countP isAddedLine
      ∧ (positionIndex patch).map Prod.fst
          = List.range' 1 ((pySplitNl patch).countP isAddedLine) :=
  ⟨indexLines_length (pySplitNl patch) 1 0,
   indexLines_map_fst (pySplitNl patch) 1 0⟩

/-- **C3 (counterexample).** The claim states that a `+++ ` to-file header
line advances neither counter.  In the code it falls into the `else` branch
of the walker and advances `position`: from state `(1, 0)` the line
`"+++ b/file.py"` leads to state `(2, 0)`, not `(1, 0)`. -/
theorem toFileHeader_counterexample :
    stepState (1, 0) "+++ b/file.py" = (2, 0)
      ∧ stepState (1, 0) "+++ b/file.py" ≠ (1, 0) := by
  constructor
  · decide
  · decide

/-- **C3 (amended).** A line beginning with `+++ ` (the to-file header) is
excluded from the AddedLineOrdinal counter—it neither advances it nor has a
pair recorded for it—but it *does* advance DiffPosition by one, exactly like
a removed or context line. -/
theorem toFileHeader_advances_position (pos plus : Nat) (l : String)
    (h : strStartsWith l "+++ " = true) :
    stepState (pos, plus) l = (pos + 1, plus)
      ∧ recordAt (pos, plus) l = none := by
  have ha : isAddedLine l = false := startsWith_plusplusplus_not_added l h
  have hh : isHunkHeader l = false :=
    startsWith_plus_not_hunk l (startsWith_plusplusplus_starts_plus l h)
  constructor
  · simp [stepState, ha, hh]
  · simp [recordAt, ha]

/-- Witness for `toFileHeader_advances_position` at a concrete header line
and state. -/
theorem toFileHeader_advances_position_witness :
    stepState (5, 2) "+++ b/src/app.py" = (6, 2)
      ∧ recordAt (5, 2) "+++ b/src/app.py" = none :=
  toFileHeader_advances_position 5 2 "+++ b/src/app.py" (by decide)

/-! ## Association lists (Python `dict`s)

Python dictionaries are insertion ordered with unique keys; they are modelled
as association lists.  `lookupA` is `dict.get`, `containsKeyA` is `key in
dict`, `updateA` is item assignment to an existing key (value replaced in
place), and appending a fresh pair is item assignment to a new key. -/

def lookupA {α : Type} : List (String × α) → String → Option α
  | [], _ => none
  | (k, v) :: rest, key => if k = key then some v else lookupA rest key

def containsKeyA {α : Type} (l : List (String × α)) (key : String) : Bool :=
  (lookupA l key).isSome

def updateA {α : Type} : List (String × α) → String → α → List (String × α)
  | [], _, _ => []
  | (k, v) :: rest, key, nv =>
    if k = key then (k, nv) :: rest else (k, v) :: updateA rest key nv

/-! ## `get_file_language` -/

/-- The `extension_map` table of `get_file_language`. -/
def extensionMap : List (String × String) :=
  [(".py", "python"), (".js", "javascript"), (".jsx", "javascript"),
   (".ts", "typescript"), (".tsx", "typescript"), (".java", "java"),
   (".c", "c"), (".cpp", "c++"), (".cs", "c#"), (".go", "go"),
   (".rb", "ruby"), (".php", "php"), (".swift", "swift"), (".kt", "kotlin"),
   (".rs", "rust"), (".scala", "scala"), (".sh", "shell"),
   (".bash", "shell"), (".html", "html"), (".css", "css"),
   (".scss", "scss"), (".sql", "sql")]

/-- Greatest index at which `c` occurs in the list (Python `str.rfind`). -/
def lastIdxOf (c : Char) : List Char → Option Nat
  | [] => none
  | a :: rest =>
    match lastIdxOf c rest with
    | some j => some (j + 1)
    | none => if a = c then some 0 else none

/-- The final path component, modelling `pathlib.Path(file_name).name`
(separator splitting; empty components are dropped). -/
def pathName (fileName : String) : String :=
  ((splitChAux '/' fileName.data []).filter (fun s => !(s == ""))).getLastD ""

/-- `pathlib.Path(file_name).suffix`: the part of the final component from
its last dot, provided that dot is neither the first nor the last
character. -/
def pathSuffix (fileName : String) : String :=
  let nm := pathName fileName
  match lastIdxOf '.' nm.data with
  | some i => if 0 < i ∧ i < nm.data.length - 1 then ⟨nm.data.drop i⟩ else ""
  | none => ""

/-- `get_file_language`: map the lowercased extension through
`extension_map`, defaulting to `"unknown"`. -/
def get_file_language (fileName : String) : String :=
  (lookupA extensionMap (pyLower (pathSuffix fileName))).getD "unknown"

/-! ## The posting loop of `post_inline_comments`

The styling dictionary is modelled as a record of its resolved values.  The
source reads `show_details` twice (`styling.get("show_details", True)` into a
local and `styling.get("show_details", False)` at the use site, conjoined);
with a resolved record both reads return the same field and the conjunction
collapses to that field. -/

structure CommentStyling where
  emoji_prefix : Bool
  show_code_block : Bool
  show_details : Bool
  show_code_preview : Bool
  custom_signature : String

/-- The literal `<details>` block appended when `show_details` is active. -/
def detailsBlock : String :=
  "\n\n<details>\n<summary>About this review</summary>\n\nThis automated review identifies potential issues in your code to help improve quality.\nEach suggestion aims to make your code more secure, performant, or maintainable.\n</details>"

/-- Assembly of `body_parts` into the posted comment body. -/
def buildBody (sty : CommentStyling) (language codeContent commentText : String) :
    String :=
  let title :=
    if sty.emoji_prefix then "### AI Code Review\n\n" else "### Code Review\n\n"
  let codeBlock :=
    if sty.show_code_block && !(codeContent == "") && sty.show_code_preview then
      "```" ++ language ++ "\n" ++ codeContent ++ "\n```\n\n"
    else ""
  let details := if sty.show_details then detailsBlock else ""
  let sig :=
    if !(sty.custom_signature == "") then "\n\n" ++ sty.custom_signature else ""
  title ++ codeBlock ++ commentText ++ details ++ sig

/-- First pass of `post_inline_comments`: collect, for each added line, its
content with the leading `+` removed and stripped, keyed by the string form
of the added-line ordinal. -/
def lineContentMap : List String → Nat → List (String × String)
  | [], _ => []
  | l :: rest, plus =>
    if isAddedLine l then
      (Nat.repr (plus + 1), pyStrip ⟨l.data.drop 1⟩)
        :: lineContentMap rest (plus + 1)
    else lineContentMap rest plus

/-- The record sent to the review API for one accepted comment
(`comment_data`). -/
structure PostedComment where
  body : String
  commit_id : String
  path : String
  position : Nat
deriving DecidableEq

/-- The per-added-line emission decision of the posting loop: look the
ordinal up in `inline_dict`; if a comment is attached, suppress it when the
composite key `f"{file_name}:{position}"` is already present in the existing
comments, otherwise build and emit the comment record. -/
def emitDecision (fileName language commitId : String) (sty : CommentStyling)
    (contentMap inlineDict existing : List (String × String)) :
    Nat × Nat → Option PostedComment
  | (ordinal, pos) =>
    match lookupA inlineDict (Nat.repr ordinal) with
    | none => none
    | some commentText =>
      if containsKeyA existing (fileName ++ ":" ++ Nat.repr pos) then none
      else
        some { body := buildBody sty language
                 ((lookupA contentMap (Nat.repr ordinal)).getD "") commentText
               commit_id := commitId
               path := fileName
               position := pos }

/-- Second pass of `post_inline_comments`: walk the diff lines with the
`(position, plus_line_counter)` state machine, emitting a comment record for
every added line that passes the dictionary lookup and the deduplication
gate. -/
def postLoop (fileName language commitId : String) (sty : CommentStyling)
    (contentMap inlineDict existing : List (String × String)) :
    List String → Nat × Nat → List PostedComment
  | [], _ => []
  | l :: rest, st =>
    match recordAt st l with
    | some pr =>
      match emitDecision fileName language commitId sty contentMap inlineDict
          existing pr with
      | some c =>
        c :: postLoop fileName language commitId sty contentMap inlineDict
          existing rest (stepState st l)
      | none =>
        postLoop fileName language commitId sty contentMap inlineDict
          existing rest (stepState st l)
    | none =>
      postLoop fileName language commitId sty contentMap inlineDict existing
        rest (stepState st l)

/-- `post_inline_comments` for one reviewed file: the list of comment
records actually sent. -/
def post_inline_comments (fileName commitId : String) (sty : CommentStyling)
    (inlineDict existing : List (String × String)) (patch : String) :
    List PostedComment :=
  postLoop fileName (get_file_language fileName) commitId sty
    (lineContentMap (pySplitNl patch) 0) inlineDict existing
    (pySplitNl patch) (1, 0)

theorem postLoop_eq_filterMap (fileName language commitId : String)
    (sty : CommentStyling)
    (contentMap inlineDict existing : List (String × String))
    (lines : List String) : ∀ st : Nat × Nat,
    postLoop fileName language commitId sty contentMap inlineDict existing
        lines st
      = (indexLines lines st).filterMap
          (emitDecision fileName language commitId sty contentMap inlineDict
            existing) := by
  induction lines with
  | nil => intro st; rfl
  | cons l rest ih =>
    intro st
    cases hr : recordAt st l with
    | some pr =>
      cases he : emitDecision fileName language commitId sty contentMap
          inlineDict existing pr with
      | some c =>
        simp only [postLoop, indexLines, hr, he, List.filterMap_cons, ih]
      | none =>
        simp only [postLoop, indexLines, hr, he, List.filterMap_cons, ih]
    | none =>
      simp only [postLoop, indexLines, hr, ih]

/-- **C4.** For every file and every classified comment attached to an
added-line ordinal, if the composite key `path:DiffPosition` is present in
the existing-comment index the comment is never emitted, regardless of any
difference between its text and the previously posted text (the index values
are arbitrary and never consulted); if the key is absent, the comment is
always emitted. -/
theorem dedup_gate (fileName language commitId : String) (sty : CommentStyling)
    (contentMap inlineDict existing : List (String × String)) (o p : Nat)
    (txt : String) (h : lookupA inlineDict (Nat.repr o) = some txt) :
    (containsKeyA existing (fileName ++ ":" ++ Nat.repr p) = true →
      emitDecision fileName language commitId sty contentMap inlineDict
        existing (o, p) = none)
    ∧ (containsKeyA existing (fileName ++ ":" ++ Nat.repr p) = false →
      emitDecision fileName language commitId sty contentMap inlineDict
        existing (o, p)
        = some { body := buildBody sty language
                   ((lookupA contentMap (Nat.repr o)).getD "") txt
                 commit_id := commitId
                 path := fileName
                 position := p }) := by
  constructor <;> intro hkey <;> simp [emitDecision, h, hkey]

/-- Witness for `dedup_gate`: with the comment text changed from the posted
one, the comment at an indexed position is suppressed; at a fresh position it
is emitted. -/
theorem dedup_gate_witness :
    (emitDecision "a.py" "python" "sha1" ⟨true, true, false, false, ""⟩ []
        [("1", "new text")] [("a.py:1", "old text")] (1, 1) = none)
    ∧ (emitDecision "a.py" "python" "sha1" ⟨true, true, false, false, ""⟩ []
        [("1", "new text")] [] (1, 1)
        = some { body := "### AI Code Review\n\nnew text"
                 commit_id := "sha1"
                 path := "a.py"
                 position := 1 }) := by
  constructor
  · exact (dedup_gate "a.py" "python" "sha1" ⟨true, true, false, false, ""⟩ []
      [("1", "new text")] [("a.py:1", "old text")] 1 1 "new text"
      (by decide)).1 (by decide)
  · refine ((dedup_gate "a.py" "python" "sha1" ⟨true, true, false, false, ""⟩
      [] [("1", "new text")] [] 1 1 "new text" (by decide)).2
      (by decide)).trans ?_
    decide

/-- **C10.** Suppressing a comment as a duplicate does not perturb positional
addressing: the emitted records are exactly a filter-map over the pure
position index, which is computed from the patch alone (the counters advance
uniformly over every line whether or not a comment is emitted at it), and
every emitted record carries exactly the DiffPosition the index assigns,
whatever the comment dictionary and the existing-comment index are. -/
theorem dedup_does_not_shift_positions (fileName commitId : String)
    (sty : CommentStyling) (inlineDict existing : List (String × String))
    (patch : String) :
    (post_inline_comments fileName commitId sty inlineDict existing patch
      = (positionIndex patch).filterMap
          (emitDecision fileName (get_file_language fileName) commitId sty
            (lineContentMap (pySplitNl patch) 0) inlineDict existing))
    ∧ ∀ (dict' ex' : List (String × String)) (o p : Nat) (c : PostedComment),
        emitDecision fileName (get_file_language fileName) commitId sty
          (lineContentMap (pySplitNl patch) 0) dict' ex' (o, p) = some c →
        c.position = p := by
  constructor
  · exact postLoop_eq_filterMap fileName (get_file_language fileName) commitId
      sty (lineContentMap (pySplitNl patch) 0) inlineDict existing
      (pySplitNl patch) (1, 0)
  · intro dict' ex' o p c h
    simp only [emitDecision] at h
    cases hl : lookupA dict' (Nat.repr o) with
    | none => simp [hl] at h
    | some txt =>
      simp only [hl] at h
      split at h
      · exact absurd h (by simp)
      · cases h; rfl

/-- Witness for `dedup_does_not_shift_positions` at a concrete patch,
dictionary and emitted record. -/
theorem dedup_does_not_shift_positions_witness :
    (⟨"### AI Code Review\n\nt", "sha1", "a.py", 1⟩ : PostedComment).position
      = 1 :=
  (dedup_does_not_shift_positions "a.py" "sha1" ⟨true, true, false, false, ""⟩
    [("1", "t")] [] "+x").2 [("1", "t")] [] 1 1
    ⟨"### AI Code Review\n\nt", "sha1", "a.py", 1⟩ (by decide)

/-! ## `format_comment_text`

The function first strips one leading boilerplate word, then picks an
emoji-labelled category prefix by first keyword match on the lowercased
text, and finally—in the code-example branch—unpacks the result of
`re.split(r'\b(consider|instead|use|replace)\b', comment_text, 1,
re.IGNORECASE)` into two variables.  That split result has one element (no
match) or three elements (prefix, captured separator, rest), never two, so
the unpacking raises `ValueError` whenever the branch is reached; the raise
is modelled by returning `none`. -/

def boilerplateWords : List String := ["Issue", "Problem", "Bug", "Note", "Warning"]

/-- `re.sub(r'^(Issue|Problem|Bug|Note|Warning):\s*', '', comment_text)`:
strip one leading boilerplate word with its colon and following
whitespace. -/
def stripBoilerplate (s : String) : String :=
  match boilerplateWords.find? (fun w => strStartsWith s (w ++ ":")) with
  | some w => ⟨(s.data.drop (w.data.length + 1)).dropWhile isPySpace⟩
  | none => s

inductive Category where
  | security
  | performance
  | bug
  | style
  | maintainability
  | suggestion
deriving DecidableEq

/-- The alternatives of the security regex (all literal substrings). -/
def securityKeywords : List String :=
  ["security", "vulnerability", "attack", "exploit", "injection", "xss",
   "csrf", "sanitiz"]

def performanceKeywords : List String :=
  ["performance", "slow", "efficient", "complexity", "o(n^2)", "optimize"]

def bugKeywords : List String :=
  ["bug", "error", "incorrect", "wrong", "fix", "issue", "problem", "fail"]

def styleKeywords : List String :=
  ["style", "format", "indent", "spacing", "naming", "convention"]

def maintainabilityKeywords : List String :=
  ["maintain", "readability", "clean", "refactor", "complex", "understand"]

/-- `re.search(alternation-of-literals, comment_text.lower())`: some keyword
is a substring of the lowercased text. -/
def anyKeyword (kws : List String) (lowered : String) : Bool :=
  kws.any (fun k => strContains lowered k)

/-- The if/elif keyword chain of `format_comment_text` choosing a category. -/
def classify (s : String) : Category :=
  let lowered := pyLower s
  if anyKeyword securityKeywords lowered then .security
  else if anyKeyword performanceKeywords lowered then .performance
  else if anyKeyword bugKeywords lowered then .bug
  else if anyKeyword styleKeywords lowered then .style
  else if anyKeyword maintainabilityKeywords lowered then .maintainability
  else .suggestion

/-- The emoji/label prefix attached for each category. -/
def prefixFor : Category → String
  | .security => "🔒 **Security Issue:** "
  | .performance => "⚡ **Performance Issue:** "
  | .bug => "🐛 **Potential Bug:** "
  | .style => "🎨 **Style Issue:** "
  | .maintainability => "🧹 **Maintainability:** "
  | .suggestion => "💡 **Suggestion:** "

/-- `re.search(r'`([^`]+)`', s)`: the first backtick-delimited non-empty
span, if any. -/
def firstBacktickSpan : List Char → Option (List Char)
  | [] => none
  | c :: rest =>
    if c = '`' then
      let content := rest.takeWhile (fun d => !(d = '`'))
      match rest.drop content.length with
      | _ :: _ => if content.isEmpty then firstBacktickSpan rest else some content
      | [] => none
    else firstBacktickSpan rest

def isWordChar (c : Char) : Bool := c.isAlphanum || c = '_'

def splitKeywords : List String := ["consider", "instead", "use", "replace"]

/-- The keyword of `\b(consider|instead|use|replace)\b` matching (without its
leading boundary) at the head of `cs`, if any: a case-insensitive literal
match whose following character is not a word character. -/
def keywordAt (cs : List Char) : Option String :=
  splitKeywords.find? (fun kw =>
    ((cs.take kw.data.length).map Char.toLower == kw.data)
      && !(match cs.drop kw.data.length with
           | [] => false
           | d :: _ => isWordChar d))

/-- `re.split(r'\b(consider|instead|use|replace)\b', s, 1, re.IGNORECASE)`:
scan left to right for the first boundary-delimited keyword; on a match
return `[before, matched, after]`, otherwise `[s]`. -/
def pySplitConsiderAux : Option Char → List Char → List Char → List String
  | _, [], acc => [⟨acc.reverse⟩]
  | prev, c :: rest, acc =>
    if (match prev with | some d => isWordChar d | none => false) then
      pySplitConsiderAux (some c) rest (c :: acc)
    else
      match keywordAt (c :: rest) with
      | some kw =>
        [⟨acc.reverse⟩, ⟨(c :: rest).take kw.data.length⟩,
         ⟨(c :: rest).drop kw.data.length⟩]
      | none => pySplitConsiderAux (some c) rest (c :: acc)

def pySplitConsider (s : String) : List String :=
  pySplitConsiderAux none s.data []

theorem pySplitConsiderAux_length (cs : List Char) :
    ∀ (prev : Option Char) (acc : List Char),
    (pySplitConsiderAux prev cs acc).length = 1
      ∨ (pySplitConsiderAux prev cs acc).length = 3 := by
  induction cs with
  | nil => intro prev acc; left; rfl
  | cons c rest ih =>
    intro prev acc
    simp only [pySplitConsiderAux]
    split
    · exact ih (some c) (c :: acc)
    · cases hk : keywordAt (c :: rest) with
      | some kw => right; rfl
      | none => exact ih (some c) (c :: acc)

theorem pySplitConsider_length (s : String) :
    (pySplitConsider s).length = 1 ∨ (pySplitConsider s).length = 3 :=
  pySplitConsiderAux_length s.data none []

/-- `format_comment_text(comment_text, file_name, language)`; `none` models
the `ValueError` escaping the function. -/
def format_comment_text (commentText fileName language : String) :
    Option String :=
  let t := stripBoilerplate commentText
  let pfx := prefixFor (classify t)
  if strContains (pyLower t) "instead" || strContains (pyLower t) "consider" then
    if language == "python" && !(strContains t "```python") then
      match firstBacktickSpan t.data with
      | some code =>
        if 5 < code.length then
          match pySplitConsider t with
          | [piece1, piece2] =>
            if 5 < piece2.length then
              some (pfx ++ (piece1 ++ "\n\nRecommended approach:\n```"
                ++ language ++ "\n" ++ (⟨code⟩ : String) ++ "\n```"))
            else some (pfx ++ t)
          | _ => none
        else some (pfx ++ t)
      | none => some (pfx ++ t)
    else some (pfx ++ t)
  else some (pfx ++ t)

/-- The condition under which the code-example branch of
`format_comment_text` is reached (and therefore raises). -/
def codeExampleBranchTaken (commentText language : String) : Bool :=
  let t := stripBoilerplate commentText
  (strContains (pyLower t) "instead" || strContains (pyLower t) "consider")
    && (language == "python" && !(strContains t "```python"))
    && (match firstBacktickSpan t.data with
        | some code => 5 < code.length
        | none => false)

/-- **C5 (counterexample).** The claim states that for every comment text
the rendered body is the category prefix followed by the (boilerplate-
stripped) text verbatim.  For a python comment containing "consider" and a
long inline code span, `format_comment_text` instead raises `ValueError`
(the two-variable unpacking of a three-element `re.split` result), so no
body is rendered at all. -/
theorem rendering_verbatim_counterexample :
    format_comment_text "Consider using `parse_config(data)` instead"
        "app.py" "python" = none
      ∧ format_comment_text "Consider using `parse_config(data)` instead"
          "app.py" "python"
        ≠ some ("💡 **Suggestion:** "
            ++ "Consider using `parse_config(data)` instead") := by
  constructor
  · decide
  · decide

/-- **C5 (amended).** Whenever `format_comment_text` returns a rendered
body, that body is exactly the category-keyed label-plus-emoji prefix
followed by the comment text verbatim after stripping one leading
boilerplate word; but when the code-example branch is reached (python
language, "consider"/"instead" present, no python code fence, a
backtick-delimited span longer than 5 characters), the function raises and
no body is produced. -/
theorem rendering_prefix_plus_verbatim (t fileName language : String) :
    format_comment_text t fileName language
      = if codeExampleBranchTaken t language then none
        else some (prefixFor (classify (stripBoilerplate t))
            ++ stripBoilerplate t) := by
  unfold format_comment_text codeExampleBranchTaken
  by_cases h1 : (strContains (pyLower (stripBoilerplate t)) "instead"
      || strContains (pyLower (stripBoilerplate t)) "consider") = true
  · by_cases h2 : (language == "python"
        && !(strContains (stripBoilerplate t) "```python")) = true
    · cases h3 : firstBacktickSpan (stripBoilerplate t).data with
      | some code =>
        by_cases h4 : 5 < code.length
        · have hlen := pySplitConsider_length (stripBoilerplate t)
          rcases hxs : pySplitConsider (stripBoilerplate t) with
            _ | ⟨a, _ | ⟨b, _ | ⟨c, ds⟩⟩⟩
          · simp [h1, h2, h3, h4, hxs]
          · simp [h1, h2, h3, h4, hxs]
          · rw [hxs] at hlen; simp at hlen
          · simp [h1, h2, h3, h4, hxs]
        · simp [h1, h2, h3, h4]
      | none => simp [h1, h2, h3]
    · have h2' : (language == "python"
          && !(strContains (stripBoilerplate t) "```python")) = false := by
        simpa using h2
      simp [h1, h2']
  · have h1' : (strContains (pyLower (stripBoilerplate t)) "instead"
        || strContains (pyLower (stripBoilerplate t)) "consider") = false := by
      simpa using h1
    simp [h1']

/-- The ordered classification rule table: security before performance,
performance before bug, bug before style, style before maintainability. -/
def classifierRules : List (List String × Category) :=
  [(securityKeywords, .security), (performanceKeywords, .performance),
   (bugKeywords, .bug), (styleKeywords, .style),
   (maintainabilityKeywords, .maintainability)]

/-- First-match-wins evaluation of an ordered rule table, defaulting to
"suggestion". -/
def firstMatchCategory : List (List String × Category) → String → Category
  | [], _ => .suggestion
  | (kws, cat) :: rest, s =>
    if anyKeyword kws (pyLower s) then cat else firstMatchCategory rest s

/-- **C6.** Classification is a deterministic function of the comment text:
it equals first-match-wins evaluation over the ordered, case-insensitive
rule table (security before performance before bug before style before
maintainability, defaulting to "suggestion"); in particular a comment
containing both "sql injection" and "refactor" is classified "security",
not "maintainability". -/
theorem classification_first_match_wins :
    (∀ s : String, classify s = firstMatchCategory classifierRules s)
    ∧ ∀ s : String, strContains (pyLower s) "sql injection" = true →
        strContains (pyLower s) "refactor" = true →
        classify s = Category.security := by
  constructor
  · intro s; rfl
  · intro s h _
    have h1 : "sql injection".data <:+: (pyLower s).data :=
      (containsSub_iff _ _).mp h
    have h2 : "injection".data <:+: "sql injection".data :=
      ⟨"sql ".data, [], by decide⟩
    have hinj : strContains (pyLower s) "injection" = true :=
      (containsSub_iff _ _).mpr (h2.trans h1)
    have hsec : anyKeyword securityKeywords (pyLower s) = true :=
      List.any_eq_true.mpr ⟨"injection", by decide, hinj⟩
    simp [classify, hsec]

/-- Witness for `classification_first_match_wins` on a comment containing
both "sql injection" and "refactor". -/
theorem classification_first_match_wins_witness :
    classify "Possible SQL injection here; refactor this handler" =
      Category.security :=
  classification_first_match_wins.2
    "Possible SQL injection here; refactor this handler"
    (by decide) (by decide)

/-! ## Annotation extraction (`review_code_with_gpt`)

The comment pattern is
`^(?:(?:Line(?:\s+number)?|L)?[\s:]*)(\d+)[\s:]+(.+)$` compiled with
`re.IGNORECASE | re.MULTILINE` and scanned with `findall`.  A match can only
start at the beginning of a line (`^`), but `\s` matches newlines, so the
label/whitespace part may spill over line breaks; `.` does not match a
newline, so each captured body ends at its line end.  The scanner below
follows the regex engine: positions are tried left to right, the alternation
`Line\s+number` / `Line` / `L` / empty is tried in that order, character
classes are greedy, and the only backtracking that can succeed is `[\s:]+`
giving characters back to `(.+)` at the very end of the text. -/

def isSpaceColon (c : Char) : Bool := isPySpace c || c = ':'

/-- Case-insensitive literal match: consume the pattern (given lowercase)
from the head of the input, returning the remainder. -/
def matchLit : List Char → List Char → Option (List Char)
  | [], cs => some cs
  | _ :: _, [] => none
  | p :: ps, c :: cs => if c.toLower = p then matchLit ps cs else none

/-- Match `[\s:]*(\d+)[\s:]+(.+)$` at the head of the input, returning the
captured digit string, the captured body and the remainder after the
match.  At the end of the text the greedy `[\s:]+` backtracks just enough to
leave `(.+)` one non-newline character. -/
def tryTail (cs : List Char) : Option (String × String × List Char) :=
  let cs1 := cs.dropWhile isSpaceColon
  let digits := cs1.takeWhile Char.isDigit
  if digits.isEmpty then none
  else
    let cs2 := cs1.drop digits.length
    let r := cs2.takeWhile isSpaceColon
    let rest := cs2.drop r.length
    match rest with
    | [] =>
      let r' := r.reverse
      let t := (r'.takeWhile (fun d => d = '\n')).length
      if t + 2 ≤ r.length then
        some (⟨digits⟩, ⟨(r'.drop t).take 1⟩, (r'.take t).reverse)
      else none
    | _ :: _ =>
      if r.isEmpty then none
      else
        let body := rest.takeWhile (fun d => !(d = '\n'))
        some (⟨digits⟩, ⟨body⟩, rest.drop body.length)

/-- Attempt the full pattern at a line-start position: the optional label
(`Line` followed by whitespace and `number`, then `Line`, then `L`, then
nothing, in regex alternation order) followed by the tail. -/
def tryMatch (cs : List Char) : Option (String × String × List Char) :=
  (match matchLit "line".data cs with
   | some c1 =>
     let ws := c1.takeWhile isPySpace
     if ws.isEmpty then none
     else
       match matchLit "number".data (c1.drop ws.length) with
       | some c2 => tryTail c2
       | none => none
   | none => none)
  <|> (match matchLit "line".data cs with
       | some c1 => tryTail c1
       | none => none)
  <|> (match matchLit "l".data cs with
       | some c1 => tryTail c1
       | none => none)
  <|> tryTail cs

/-- Scan the text position by position, attempting the pattern at every
line start and resuming after each match (fuel-driven; every step consumes
at least one character). -/
def scanAux : Nat → List Char → Bool → List (String × String)
  | 0, _, _ => []
  | _ + 1, [], _ => []
  | fuel + 1, c :: rest, atStart =>
    if atStart then
      match tryMatch (c :: rest) with
      | some (num, body, remaining) =>
        (num, body) :: scanAux fuel remaining false
      | none => scanAux fuel rest (c = '\n')
    else scanAux fuel rest (c = '\n')

/-- `comment_pattern.findall(inline_comments)`: every `(line number, body)`
capture pair, in scan order. -/
def findAllComments (s : String) : List (String × String) :=
  scanAux (s.data.length + 1) s.data true

/-- The annotation pairs surviving the `.strip()` and the empty-body discard
of the extraction loop. -/
def extractedComments (s : String) : List (String × String) :=
  ((findAllComments s).map (fun p => (p.1, pyStrip p.2))).filter
    (fun p => !(p.2 == ""))

/-- The separator under which a comment landing on an already-seen ordinal
is appended. -/
def additionalMarker : String := "\n\n**Additional issue:** "

/-- One iteration of the inline-comment loop of `review_code_with_gpt`:
strip the body, discard it if empty, format it (a raise inside
`format_comment_text` is caught and drops the comment), then merge into the
dictionary—appending under the marker when the ordinal is already present,
inserting otherwise. -/
def dictStep (fileName language : String) (d : List (String × String))
    (p : String × String) : List (String × String) :=
  let t := pyStrip p.2
  if t == "" then d
  else
    match format_comment_text t fileName language with
    | none => d
    | some fm =>
      match lookupA d p.1 with
      | some old => updateA d p.1 (old ++ additionalMarker ++ fm)
      | none => d ++ [(p.1, fm)]

/-- The `inline_dict` built from a model response for one file. -/
def buildInlineDict (inlineComments fileName language : String) :
    List (String × String) :=
  (findAllComments inlineComments).foldl (dictStep fileName language) []

/-- **C8.** On the annotation text `"3: fix null check\n7: avoid O(n^2)
loop"` extraction yields exactly two entries, keyed by the textual ordinals
`"3"` and `"7"`, whose bodies are the given comment texts trimmed; and for
every input, matches whose body is empty after trimming are discarded. -/
theorem extraction_example_and_discard :
    extractedComments "3: fix null check\n7: avoid O(n^2) loop"
        = [("3", "fix null check"), ("7", "avoid O(n^2) loop")]
      ∧ ∀ (s : String) (p : String × String),
          p ∈ extractedComments s → p.2 ≠ "" := by
  constructor
  · decide
  · intro s p hp
    have h := List.of_mem_filter hp
    simpa using h

/-- Witness for `extraction_example_and_discard` at a concrete extracted
pair. -/
theorem extraction_example_and_discard_witness :
    (("3", "fix null check") : String × String).2 ≠ "" :=
  extraction_example_and_discard.2 "3: fix null check\n7: avoid O(n^2) loop"
    ("3", "fix null check") (by decide)

/-! Association-list lemmas used by the merge invariant. -/

theorem lookupA_updateA_self {α : Type} (l : List (String × α)) (k : String)
    (nv : α) :
    lookupA (updateA l k nv) k
      = match lookupA l k with
        | some _ => some nv
        | none => none := by
  induction l with
  | nil => rfl
  | cons kv rest ih =>
    obtain ⟨k', v⟩ := kv
    by_cases h : k' = k
    · simp [updateA, lookupA, h]
    · simp [updateA, lookupA, h, ih]

theorem lookupA_updateA_ne {α : Type} (l : List (String × α)) (k j : String)
    (nv : α) (h : j ≠ k) :
    lookupA (updateA l k nv) j = lookupA l j := by
  induction l with
  | nil => rfl
  | cons kv rest ih =>
    obtain ⟨k', v⟩ := kv
    by_cases hk : k' = k
    · subst hk
      have hkj : ¬(k' = j) := fun hc => h hc.symm
      simp [updateA, lookupA, hkj]
    · simp [updateA, lookupA, hk, ih]

theorem lookupA_append {α : Type} (l m : List (String × α)) (k : String) :
    lookupA (l ++ m) k
      = match lookupA l k with
        | some v => some v
        | none => lookupA m k := by
  induction l with
  | nil => rfl
  | cons kv rest ih =>
    obtain ⟨k', v⟩ := kv
    by_cases h : k' = k
    · simp [lookupA, h]
    · simp [lookupA, h, ih]

/-- The successfully formatted bodies keyed `num` among a list of extracted
pairs, in encounter order. -/
def formattedOf (fileName language num : String)
    (entries : List (String × String)) : List String :=
  entries.filterMap (fun p =>
    if p.1 == num && !(pyStrip p.2 == "") then
      format_comment_text (pyStrip p.2) fileName language
    else none)

/-- The successfully formatted bodies of the annotations of a response text
keyed `num`, in encounter order. -/
def formattedBodies (s fileName language num : String) : List String :=
  formattedOf fileName language num (findAllComments s)

/-- Joining merged texts under the "Additional issue" marker, first-seen
first. -/
def joinAdditional : List String → Option String
  | [] => none
  | h :: rest =>
    some (rest.foldl (fun a b => a ++ additionalMarker ++ b) h)

theorem foldl_dictStep_lookup (fileName language num : String) :
    ∀ (entries : List (String × String)) (d : List (String × String)),
    lookupA (entries.foldl (dictStep fileName language) d) num
      = match lookupA d num with
        | some v =>
          some ((formattedOf fileName language num entries).foldl
            (fun a b => a ++ additionalMarker ++ b) v)
        | none => joinAdditional (formattedOf fileName language num entries) := by
  intro entries
  induction entries with
  | nil =>
    intro d
    cases h : lookupA d num <;> simp [formattedOf, joinAdditional, h]
  | cons e rest ih =>
    intro d
    obtain ⟨k, raw⟩ := e
    by_cases ht : pyStrip raw = ""
    · have hf : formattedOf fileName language num ((k, raw) :: rest)
          = formattedOf fileName language num rest := by
        simp [formattedOf, List.filterMap_cons, ht]
      rw [List.foldl_cons]
      have hd : dictStep fileName language d (k, raw) = d := by
        simp [dictStep, ht]
      rw [hd, hf, ih d]
    · cases hfm : format_comment_text (pyStrip raw) fileName language with
      | none =>
        have hf : formattedOf fileName language num ((k, raw) :: rest)
            = formattedOf fileName language num rest := by
          simp [formattedOf, List.filterMap_cons, hfm]
        rw [List.foldl_cons]
        have hd : dictStep fileName language d (k, raw) = d := by
          simp [dictStep, ht, hfm]
        rw [hd, hf, ih d]
      | some fm =>
        by_cases hkeq : k = num
        · subst hkeq
          have hf : formattedOf fileName language k ((k, raw) :: rest)
              = fm :: formattedOf fileName language k rest := by
            simp [formattedOf, List.filterMap_cons, ht, hfm]
          rw [List.foldl_cons, hf]
          cases hd : lookupA d k with
          | some old =>
            have hstep : dictStep fileName language d (k, raw)
                = updateA d k (old ++ additionalMarker ++ fm) := by
              simp [dictStep, ht, hfm, hd]
            rw [hstep, ih]
            rw [lookupA_updateA_self, hd]
            simp
          | none =>
            have hstep : dictStep fileName language d (k, raw)
                = d ++ [(k, fm)] := by
              simp [dictStep, ht, hfm, hd]
            rw [hstep, ih]
            rw [lookupA_append, hd]
            simp [lookupA, joinAdditional]
        · have hf : formattedOf fileName language num ((k, raw) :: rest)
              = formattedOf fileName language num rest := by
            simp [formattedOf, List.filterMap_cons, hkeq]
          rw [List.foldl_cons, hf]
          have htb : (pyStrip raw == "") = false := by simpa using ht
          have hlook : lookupA (dictStep fileName language d (k, raw)) num
              = lookupA d num := by
            simp only [dictStep, htb, Bool.false_eq_true, if_false, hfm]
            cases hd : lookupA d k with
            | some old =>
              simp only [hd]
              exact lookupA_updateA_ne d k num _ (fun hc => hkeq hc.symm)
            | none =>
              simp only [hd]
              rw [lookupA_append]
              cases hnum : lookupA d num with
              | some v => rfl
              | none => simp [lookupA, hkeq]
          rw [ih, hlook]

/-- **C7 (counterexample).** The claim states the merged entry for a shared
ordinal contains *all* the texts of its annotations.  On a python file, an
annotation whose formatting raises (consider + long inline code span) is
dropped by the exception handler, so the merged entry for ordinal `"5"`
contains only the second text: the extraction finds two annotations keyed
`"5"`, yet the resulting mapping's sole entry does not contain the first
text at all. -/
theorem merge_drops_raising_comment :
    (extractedComments
        "5: Consider using `http_client()` here\n5: also check the bounds").map
        Prod.fst = ["5", "5"]
      ∧ buildInlineDict
          "5: Consider using `http_client()` here\n5: also check the bounds"
          "app.py" "python"
        = [("5", "💡 **Suggestion:** also check the bounds")]
      ∧ strContains "💡 **Suggestion:** also check the bounds" "Consider"
        = false := by
  refine ⟨by decide, by decide, by decide⟩

/-- **C7 (amended).** For every model response text, the mapping entry for a
key is exactly the *successfully formatted* texts of its annotations joined
in first-encounter order, each subsequent one appended under the visible
"Additional issue" marker—an earlier text is never overwritten by a later
one; annotations whose formatting raises are dropped from the merge. -/
theorem merge_never_overwrites (s fileName language num : String) :
    lookupA (buildInlineDict s fileName language) num
      = joinAdditional (formattedBodies s fileName language num) := by
  unfold buildInlineDict formattedBodies
  have h := foldl_dictStep_lookup fileName language num (findAllComments s) []
  simpa [lookupA] using h

/-! ## `PRReviewConfig._merge_config`

Configuration documents (YAML/JSON mappings) are modelled by `PyVal`;
mappings are insertion-ordered association lists.  `dictUpdate` is Python's
`dict.update`: existing keys keep their position and receive the override
value, unmatched override keys are appended in override order. -/

inductive PyVal where
  | str : String → PyVal
  | int : Int → PyVal
  | bool : Bool → PyVal
  | list : List PyVal → PyVal
  | dict : List (String × PyVal) → PyVal

/-- `d.update(o)` for Python dicts. -/
def dictUpdate (d o : List (String × PyVal)) : List (String × PyVal) :=
  d.map (fun kv => (kv.1, (lookupA o kv.1).getD kv.2))
    ++ o.filter (fun kv => (lookupA d kv.1).isNone)

/-- One iteration of the `_merge_config` loop: for an override item, if the
key is present and both values are mappings, deep-merge one level; if the
key is present otherwise, replace wholesale; if the key is new, append. -/
def mergeStep (config : List (String × PyVal)) (kv : String × PyVal) :
    List (String × PyVal) :=
  match lookupA config kv.1, kv.2 with
  | some (PyVal.dict dd), PyVal.dict oo =>
      updateA config kv.1 (PyVal.dict (dictUpdate dd oo))
  | some _, _ => updateA config kv.1 kv.2
  | none, _ => config ++ [kv]

/-- `_merge_config`: fold the override document onto the configuration. -/
def merge_config (config custom : List (String × PyVal)) :
    List (String × PyVal) :=
  custom.foldl mergeStep config

/-- `PRReviewConfig.DEFAULT_CONFIG`. -/
def DEFAULT_CONFIG : List (String × PyVal) :=
  [("review_mode", PyVal.str "standard"),
   ("comment_threshold", PyVal.str "medium"),
   ("file_filters", PyVal.dict
     [("include", PyVal.list [PyVal.str "*"]),
      ("exclude", PyVal.list
        [PyVal.str "*.md", PyVal.str "*.txt",
         PyVal.str "package-lock.json", PyVal.str "yarn.lock"])]),
   ("review_focus", PyVal.list
     [PyVal.str "bugs", PyVal.str "security", PyVal.str "performance",
      PyVal.str "maintainability", PyVal.str "readability"]),
   ("summary_length", PyVal.int 200),
   ("ignore_lines_containing", PyVal.list
     [PyVal.str "TODO", PyVal.str "FIXME", PyVal.str "NOSONAR",
      PyVal.str "# pragma: no cover"]),
   ("language_specific_rules", PyVal.dict
     [("python", PyVal.dict
        [("style_guide", PyVal.str "PEP8"),
         ("extra_focus", PyVal.list
           [PyVal.str "type_hints", PyVal.str "docstrings"])]),
      ("javascript", PyVal.dict
        [("style_guide", PyVal.str "Airbnb"),
         ("extra_focus", PyVal.list
           [PyVal.str "null_safety", PyVal.str "async_patterns"])])]),
   ("comment_styling", PyVal.dict
     [("title_prefix", PyVal.str "🔍 AI Code Review - Line"),
      ("show_code_block", PyVal.bool true),
      ("show_details", PyVal.bool false),
      ("custom_signature", PyVal.str ""),
      ("emoji_prefix", PyVal.bool true),
      ("show_code_preview", PyVal.bool false)])]

theorem lookupA_eq_none_of_not_mem {α : Type} (l : List (String × α))
    (key : String) (h : key ∉ l.map Prod.fst) : lookupA l key = none := by
  induction l with
  | nil => rfl
  | cons kv rest ih =>
    obtain ⟨k, v⟩ := kv
    simp only [List.map_cons, List.mem_cons] at h
    push_neg at h
    have hne : ¬(k = key) := fun hc => h.1 hc.symm
    simp [lookupA, hne, ih h.2]

theorem lookupA_map_getD (d o : List (String × PyVal)) (ik : String) :
    lookupA (d.map (fun kv => (kv.1, (lookupA o kv.1).getD kv.2))) ik
      = (lookupA d ik).map (fun v => (lookupA o ik).getD v) := by
  induction d with
  | nil => rfl
  | cons kv rest ih =>
    obtain ⟨k, v⟩ := kv
    by_cases hk : k = ik
    · subst hk
      simp [lookupA]
    · simp [lookupA, hk, ih]

theorem lookupA_filter_isNone (d o : List (String × PyVal)) (ik : String) :
    lookupA (o.filter (fun kv => (lookupA d kv.1).isNone)) ik
      = match lookupA d ik with
        | none => lookupA o ik
        | some _ => none := by
  induction o with
  | nil => cases h : lookupA d ik <;> simp [lookupA]
  | cons kv rest ih =>
    obtain ⟨k, v⟩ := kv
    by_cases hk : k = ik
    · subst hk
      cases hd : lookupA d k with
      | none => simp [List.filter_cons, hd, lookupA]
      | some w => simp [List.filter_cons, hd, lookupA, ih, hd]
    · cases hdk : lookupA d k with
      | none => simp [List.filter_cons, hdk, lookupA, hk, ih]
      | some w => simp [List.filter_cons, hdk, lookupA, hk, ih]

theorem dictUpdate_lookup (dd oo : List (String × PyVal)) (ik : String) :
    lookupA (dictUpdate dd oo) ik
      = match lookupA oo ik with
        | some w => some w
        | none => lookupA dd ik := by
  unfold dictUpdate
  rw [lookupA_append, lookupA_map_getD, lookupA_filter_isNone]
  cases hd : lookupA dd ik with
  | none =>
    cases ho : lookupA oo ik with
    | none => rfl
    | some w => rfl
  | some v =>
    cases ho : lookupA oo ik with
    | none => rfl
    | some w => rfl

theorem mergeStep_lookup_self (config : List (String × PyVal)) (k₀ : String)
    (v₀ : PyVal) :
    lookupA (mergeStep config (k₀, v₀)) k₀
      = match lookupA config k₀, v₀ with
        | some (PyVal.dict dd), PyVal.dict oo =>
            some (PyVal.dict (dictUpdate dd oo))
        | some _, _ => some v₀
        | none, _ => some v₀ := by
  cases hc : lookupA config k₀ with
  | none =>
    simp only [mergeStep, hc]
    rw [lookupA_append, hc]
    cases v₀ <;> simp [lookupA]
  | some w =>
    cases w with
    | dict dd =>
      cases v₀ with
      | dict oo =>
        simp only [mergeStep, hc]
        rw [lookupA_updateA_self, hc]
      | str s => simp only [mergeStep, hc]; rw [lookupA_updateA_self, hc]
      | int n => simp only [mergeStep, hc]; rw [lookupA_updateA_self, hc]
      | bool b => simp only [mergeStep, hc]; rw [lookupA_updateA_self, hc]
      | list xs => simp only [mergeStep, hc]; rw [lookupA_updateA_self, hc]
    | str s =>
      cases v₀ <;> (simp only [mergeStep, hc]; rw [lookupA_updateA_self, hc])
    | int n =>
      cases v₀ <;> (simp only [mergeStep, hc]; rw [lookupA_updateA_self, hc])
    | bool b =>
      cases v₀ <;> (simp only [mergeStep, hc]; rw [lookupA_updateA_self, hc])
    | list xs =>
      cases v₀ <;> (simp only [mergeStep, hc]; rw [lookupA_updateA_self, hc])

theorem mergeStep_lookup_ne (config : List (String × PyVal)) (k₀ key : String)
    (v₀ : PyVal) (h : key ≠ k₀) :
    lookupA (mergeStep config (k₀, v₀)) key = lookupA config key := by
  have happ : lookupA (config ++ [(k₀, v₀)]) key = lookupA config key := by
    rw [lookupA_append]
    cases hc : lookupA config key with
    | some v => rfl
    | none =>
      have hne : ¬(k₀ = key) := fun hc => h hc.symm
      simp [lookupA, hne]
  cases hc : lookupA config k₀ with
  | none => cases v₀ <;> (simp only [mergeStep, hc]; exact happ)
  | some w =>
    cases w <;> cases v₀ <;>
      (simp only [mergeStep, hc]; exact lookupA_updateA_ne config k₀ key _ h)

theorem merge_config_lookup (custom : List (String × PyVal)) :
    ∀ config : List (String × PyVal), (custom.map Prod.fst).Nodup → ∀ key,
    lookupA (merge_config config custom) key
      = match lookupA custom key with
        | none => lookupA config key
        | some v =>
          match lookupA config key, v with
          | some (PyVal.dict dd), PyVal.dict oo =>
              some (PyVal.dict (dictUpdate dd oo))
          | some _, _ => some v
          | none, _ => some v := by
  induction custom with
  | nil => intro config h key; rfl
  | cons kv rest ih =>
    intro config h key
    obtain ⟨k₀, v₀⟩ := kv
    simp only [List.map_cons, List.nodup_cons] at h
    obtain ⟨hnotin, hnd⟩ := h
    unfold merge_config at ih ⊢
    rw [List.foldl_cons]
    by_cases hk : key = k₀
    · subst hk
      have hrest : lookupA rest key = none :=
        lookupA_eq_none_of_not_mem rest key hnotin
      rw [ih (mergeStep config (key, v₀)) hnd key, hrest]
      simp only [lookupA, if_pos rfl]
      exact mergeStep_lookup_self config key v₀
    · have hhead : lookupA ((k₀, v₀) :: rest) key = lookupA rest key := by
        have hne : ¬(k₀ = key) := fun hc => hk hc.symm
        simp [lookupA, hne]
      rw [ih (mergeStep config (k₀, v₀)) hnd key, hhead,
        mergeStep_lookup_ne config k₀ key v₀ hk]

/-- **C9.** Configuration merge is a single-level deep merge over the
defaults: for every override document (a mapping, so its top-level keys are
distinct), a top-level key whose default and override values are both
mappings has its inner keys merged one level deep—the override wins per
inner key and unmatched default inner keys survive—while any other value
type replaces the default wholesale and new keys are added verbatim; keys
absent from the override keep their default values. -/
theorem config_single_level_deep_merge (custom : List (String × PyVal))
    (h : (custom.map Prod.fst).Nodup) :
    (∀ key, lookupA (merge_config DEFAULT_CONFIG custom) key
      = match lookupA custom key with
        | none => lookupA DEFAULT_CONFIG key
        | some v =>
          match lookupA DEFAULT_CONFIG key, v with
          | some (PyVal.dict dd), PyVal.dict oo =>
              some (PyVal.dict (dictUpdate dd oo))
          | some _, _ => some v
          | none, _ => some v)
    ∧ ∀ (dd oo : List (String × PyVal)) (ik : String),
        lookupA (dictUpdate dd oo) ik
          = match lookupA oo ik with
            | some w => some w
            | none => lookupA dd ik :=
  ⟨merge_config_lookup custom DEFAULT_CONFIG h, dictUpdate_lookup⟩

/-- Witness for `config_single_level_deep_merge`: overriding
`file_filters.exclude` with a new list replaces only that inner key and
leaves `file_filters.include` at its default value. -/
theorem config_single_level_deep_merge_witness :
    lookupA (merge_config DEFAULT_CONFIG
        [("file_filters",
          PyVal.dict [("exclude", PyVal.list [PyVal.str "*.log"])])])
        "file_filters"
      = some (PyVal.dict
          [("include", PyVal.list [PyVal.str "*"]),
           ("exclude", PyVal.list [PyVal.str "*.log"])]) := by
  have h := (config_single_level_deep_merge
      [("file_filters",
        PyVal.dict [("exclude", PyVal.list [PyVal.str "*.log"])])]
      (by decide)).1 "file_filters"
  exact h.trans rfl

end ReviewPR
